import Mathlib

/-!
# Job-Scraper: a shallow embedding of the deduplication core

This file embeds, in Lean, the deduplication and change-detection engine of
the Job-Scraper repository: `storage.py` (class `JobStorage`) and the
orchestrator parts of `main.py` (class `JobTracker`, function
`background_task`), and proves properties of the embedded code.

Modelling conventions:

* A `datetime` instant is modelled as a `Nat` (seconds since an epoch).
  The source stores timestamps as ISO-8601 strings via `isoformat()` and
  compares them with the string order; lexicographic comparison of
  equal-format ISO-8601 strings agrees with chronological order, so those
  string comparisons are modelled as comparisons on `Nat`.
* A Python `dict` is modelled as an association list with the update
  rule of `d[k] = v`: an existing key keeps its position and gets the new
  value, a fresh key is appended at the end.  A job posting is a `dict`
  whose keys may be absent, hence `Option` fields; `d.get(k, default)` is
  `Option.getD`.
* File IO is modelled by a `FileState` carried in the storage record:
  `save_seen_jobs` writes the current map into it, `load_seen_jobs` reads
  it back; an absent or unparsable file yields the empty map, as in the
  `except` branch of the source.
* `async` effects (logging, the Discord webhook call whose Boolean result
  the orchestrator discards) do not influence the store, so runs are
  modelled as pure state transformers that additionally report which jobs
  were passed to `send_job_alert`.
-/

namespace JobScraper

/-- A scraped job posting: a Python dict whose relevant keys may be absent.
The scraper also attaches `location`, `category`, `date_posted`, contact
fields and the orchestrator attaches `matched_keywords`; none of these is
read by the deduplication logic, so they are omitted from the record. -/
structure Job where
  title : Option String
  description : Option String
  url : Option String
  deriving Repr, DecidableEq

/-- Python dict update `d[k] = v` on an association list: an existing key
keeps its position and receives the new value, a fresh key is appended. -/
def dictInsert (k : String) (v : Nat) : List (String × Nat) → List (String × Nat)
  | [] => [(k, v)]
  | (k', v') :: rest =>
      if k' = k then (k, v) :: rest else (k', v') :: dictInsert k v rest

/-- The contents of the persistence file `seen_jobs.json`: absent,
unparsable, the legacy plain list of identities, or the current mapping
from identity to first-seen timestamp. -/
inductive FileState where
  | absent
  | corrupt
  | legacyList (ids : List String)
  | mapping (m : List (String × Nat))
  deriving Repr, DecidableEq

/-- The `JobStorage` object: the in-memory dict `seen_jobs` plus the
backing file. -/
structure JobStorage where
  seen_jobs : List (String × Nat)
  file : FileState
  deriving Repr, DecidableEq

/-- `JobStorage.load_seen_jobs`: a missing file or a parse failure yields
`{}`; a JSON list (the old format) is upgraded via the dict comprehension
`\x7bjob_id: datetime.now().isoformat() for job_id in data\x7d`, assigning
every listed identity the load-time instant `now`; a JSON object is
returned as-is. -/
def load_seen_jobs (now : Nat) : FileState → List (String × Nat)
  | .absent => []
  | .corrupt => []
  | .legacyList ids => ids.foldl (fun acc i => dictInsert i now acc) []
  | .mapping m => m

/-- `JobStorage.__init__`: sets `self.seen_jobs = self.load_seen_jobs()`
from the given file. -/
def initStorage (now : Nat) (f : FileState) : JobStorage :=
  { seen_jobs := load_seen_jobs now f, file := f }

/-- `JobStorage.save_seen_jobs`: `json.dump(self.seen_jobs, f)` — writes
the in-memory map into the file. -/
def save_seen_jobs (s : JobStorage) : JobStorage :=
  { s with file := .mapping s.seen_jobs }

/-- `JobStorage.job_exists`: `job_id in self.seen_jobs` — key membership
in the dict. -/
def job_exists (id_ : String) (s : JobStorage) : Bool :=
  (s.seen_jobs.lookup id_).isSome

/-- `JobStorage.save_job`: `self.seen_jobs[job_id] = datetime.now().isoformat()`
followed by `self.save_seen_jobs()`; `now` is the current instant. -/
def save_job (id_ : String) (now : Nat) (s : JobStorage) : JobStorage :=
  save_seen_jobs { s with seen_jobs := dictInsert id_ now s.seen_jobs }

/-- `JobStorage.cleanup_old_entries(hours=24)`: `cutoff = now - timedelta(hours=hours)`,
keep exactly the entries with `timestamp > cutoff` (ISO-string comparison,
modelled on `Nat` seconds), compute `removed = initial_count - len(...)`,
and call `save_seen_jobs` once at the end iff `removed > 0`.  The Python
method returns `None`; the returned `Nat` is the local `removed` (which
the source only logs) and the returned `Bool` records whether the single
flush happened, so that the effects can be stated. -/
def cleanup_old_entries (hoursArg now : Nat) (s : JobStorage) : JobStorage × Nat × Bool :=
  let cutoff := now - hoursArg * 3600
  let kept := s.seen_jobs.filter (fun p => cutoff < p.2)
  let removed := s.seen_jobs.length - kept.length
  if 0 < removed then
    ({ seen_jobs := kept, file := .mapping kept }, removed, true)
  else
    ({ s with seen_jobs := kept }, removed, false)

/-- Python `text.lower()`, character-wise (the postings and keywords here
are ASCII, where this agrees with `str.lower`). -/
def pyLower (s : String) : String := ⟨s.data.map Char.toLower⟩

/-- Python substring test `kw in text` on the character lists. -/
def pyIn (kw text : String) : Bool :=
  (List.range (text.data.length + 1)).any fun i =>
    decide ((text.data.drop i).take kw.data.length = kw.data)

/-- `JobTracker.contains_keywords`: empty text yields `[]`; otherwise the
keywords (already trimmed and lowercased at startup) that occur as
substrings of `text.lower()`, in configured order. -/
def contains_keywords (keywords : List String) (text : String) : List String :=
  if text = "" then []
  else keywords.filter (fun k => k ≠ "" && pyIn k (pyLower text))

/-- `job.get('title', '')`. -/
def jobTitle (j : Job) : String := j.title.getD ""

/-- `job.get('description', '')`. -/
def jobDesc (j : Job) : String := j.description.getD ""

/-- The keyword-filtering step of `check_for_new_jobs`:
`all_keywords = list(set(title_keywords + desc_keywords))` — modelled as
`dedup` of the concatenation (the set loses Python ordering; only
membership and non-emptiness are used downstream). -/
def matchedKeywords (keywords : List String) (j : Job) : List String :=
  (contains_keywords keywords (jobTitle j) ++
    contains_keywords keywords (jobDesc j)).dedup

/-- The jobs surviving the keyword filter (`if all_keywords:`), in
discovery order. -/
def matching (keywords : List String) (jobs : List Job) : List Job :=
  jobs.filter (fun j => !(matchedKeywords keywords j).isEmpty)

/-- `job_id = job.get('url', job.get('title', ''))` — the identity used by
the dedup step.  The fallback to the title fires only when the key `url`
is absent from the dict, not when its value is the empty string. -/
def jobId (j : Job) : String :=
  j.url.getD (j.title.getD "")

/-- The dedup loop of `check_for_new_jobs`: for each matching job, if its
identity is not in the store, append the job to `new_jobs` and record the
identity (the store is mutated and flushed by `save_job` before the next
job is examined).  All timestamps of one cycle are modelled with the one
instant `now` (second precision; the exact values are never read by the
orchestrator). -/
def dedupLoop (now : Nat) : List Job → JobStorage → List Job × JobStorage
  | [], s => ([], s)
  | j :: rest, s =>
      if job_exists (jobId j) s then dedupLoop now rest s
      else
        let r := dedupLoop now rest (save_job (jobId j) now s)
        (j :: r.1, r.2)

/-- The observable outcome of one `check_for_new_jobs` call: the returned
`len(new_jobs)`, the storage afterwards, the `new_jobs` list, and the jobs
passed to `notifier.send_job_alert` in order.  The Boolean result of each
webhook call is discarded by the source, so it does not appear. -/
structure CycleResult where
  count : Nat
  storage : JobStorage
  new_jobs : List Job
  notified : List Job
  deriving Repr, DecidableEq

/-- `JobTracker.check_for_new_jobs`: filter the scraped jobs by keywords,
run the dedup loop (recording every new identity), then send a
notification for every job in `new_jobs` iff `new_jobs` is non-empty and
`notifications_enabled`; return `len(new_jobs)`. -/
def check_for_new_jobs (keywords : List String) (enabled : Bool) (now : Nat)
    (jobs : List Job) (s : JobStorage) : CycleResult :=
  let r := dedupLoop now (matching keywords jobs) s
  { count := r.1.length
    storage := r.2
    new_jobs := r.1
    notified := if enabled then r.1 else [] }

/-- One scheduled or manual cycle: the notifications-enabled flag (fixed
at tracker construction in the source, kept per-cycle here so that
statements can quantify over it), the cycle instant, and the scraped
jobs. -/
def Cycle := Bool × Nat × List Job

/-- `background_task`: repeatedly `await tracker.check_for_new_jobs()`
then sleep.  Returns the final storage and, per cycle, the list of jobs
for which `send_job_alert` was invoked.  No other storage operation is
performed between cycles (in particular `cleanup_old_entries` is never
called by the loop). -/
def runCycles (keywords : List String) :
    List Cycle → JobStorage → JobStorage × List (List Job)
  | [], s => (s, [])
  | c :: rest, s =>
      let r := check_for_new_jobs keywords c.1 c.2.1 c.2.2 s
      let rr := runCycles keywords rest r.storage
      (rr.1, r.notified :: rr.2)

/-- The identities of the matching jobs of a cycle, in discovery order. -/
def matchingIds (keywords : List String) (c : Cycle) : List String :=
  (matching keywords c.2.2).map jobId

/-- Size of the persisted form: number of entries serialized in the
file. -/
def fileLength : FileState → Nat
  | .absent => 0
  | .corrupt => 0
  | .legacyList ids => ids.length
  | .mapping m => m.length


/-! ## Basic facts about the dict model -/

theorem lookup_dictInsert_self (k : String) (v : Nat) (l : List (String × Nat)) :
    (dictInsert k v l).lookup k = some v := by
  induction l with
  | nil => simp [dictInsert, List.lookup]
  | cons p rest ih =>
      obtain ⟨k', v'⟩ := p
      by_cases h : k' = k
      · subst h
        simp [dictInsert, List.lookup]
      · simp [dictInsert, h, List.lookup, beq_eq_false_iff_ne.mpr (Ne.symm h), ih]

theorem lookup_dictInsert_ne (k k' : String) (v : Nat) (l : List (String × Nat))
    (h : k' ≠ k) : (dictInsert k v l).lookup k' = l.lookup k' := by
  induction l with
  | nil => simp [dictInsert, List.lookup, beq_eq_false_iff_ne.mpr h]
  | cons p rest ih =>
      obtain ⟨a, b⟩ := p
      by_cases ha : a = k
      · subst ha
        simp [dictInsert, List.lookup, beq_eq_false_iff_ne.mpr h]
      · simp [dictInsert, ha, List.lookup, ih]

theorem mem_dictInsert (p : String × Nat) (k : String) (v : Nat)
    (l : List (String × Nat)) (h : p ∈ dictInsert k v l) : p = (k, v) ∨ p ∈ l := by
  induction l with
  | nil => simpa [dictInsert] using h
  | cons q rest ih =>
      obtain ⟨a, b⟩ := q
      by_cases ha : a = k
      · subst ha
        rcases (by simpa [dictInsert] using h) with h1 | h1
        · exact Or.inl h1
        · exact Or.inr (List.mem_cons_of_mem _ h1)
      · rcases (by simpa [dictInsert, ha] using h) with h1 | h1
        · exact Or.inr (by simp [h1])
        · rcases ih h1 with h2 | h2
          · exact Or.inl h2
          · exact Or.inr (List.mem_cons_of_mem _ h2)

theorem length_dictInsert_isSome (k : String) (v : Nat) (l : List (String × Nat))
    (h : (l.lookup k).isSome) : (dictInsert k v l).length = l.length := by
  induction l with
  | nil => simp [List.lookup] at h
  | cons p rest ih =>
      obtain ⟨a, b⟩ := p
      by_cases ha : a = k
      · subst ha
        simp [dictInsert]
      · have h' : (rest.lookup k).isSome := by
          simpa [List.lookup, beq_eq_false_iff_ne.mpr (Ne.symm ha)] using h
        simp [dictInsert, ha, ih h']

theorem lookup_mem {l : List (String × Nat)} {k : String} {v : Nat}
    (h : l.lookup k = some v) : (k, v) ∈ l := by
  induction l with
  | nil => simp [List.lookup] at h
  | cons p rest ih =>
      obtain ⟨a, b⟩ := p
      by_cases ha : k = a
      · subst ha
        simp [List.lookup] at h
        simp [h]
      · have h' : rest.lookup k = some v := by
          simpa [List.lookup, beq_eq_false_iff_ne.mpr ha] using h
        exact List.mem_cons_of_mem _ (ih h')

theorem job_exists_save_job (x i : String) (t : Nat) (s : JobStorage) :
    job_exists x (save_job i t s) = (x == i || job_exists x s) := by
  by_cases h : x = i
  · subst h
    simp [job_exists, save_job, save_seen_jobs, lookup_dictInsert_self]
  · simp [job_exists, save_job, save_seen_jobs, lookup_dictInsert_ne _ _ _ _ h, h]


/-! ## The dedup loop -/

theorem dedupLoop_mono (now : Nat) (jobs : List Job) (s : JobStorage) (x : String)
    (h : job_exists x s = true) : job_exists x (dedupLoop now jobs s).2 = true := by
  induction jobs generalizing s with
  | nil => simpa [dedupLoop] using h
  | cons j rest ih =>
      by_cases hj : job_exists (jobId j) s = true
      · simpa [dedupLoop, hj] using ih s h
      · simp only [dedupLoop, hj, if_false, Bool.false_eq_true]
        exact ih _ (by simp [job_exists_save_job, h])

theorem dedupLoop_all (now : Nat) (jobs : List Job) (s : JobStorage) (j : Job)
    (hj : j ∈ jobs) : job_exists (jobId j) (dedupLoop now jobs s).2 = true := by
  induction jobs generalizing s with
  | nil => simp at hj
  | cons a rest ih =>
      by_cases ha : job_exists (jobId a) s = true
      · rcases List.mem_cons.mp hj with h1 | h1
        · subst h1
          simpa [dedupLoop, ha] using dedupLoop_mono now rest s (jobId j) ha
        · simpa [dedupLoop, ha] using ih s h1
      · rcases List.mem_cons.mp hj with h1 | h1
        · subst h1
          simp only [dedupLoop, ha, if_false, Bool.false_eq_true]
          exact dedupLoop_mono now rest _ (jobId j)
            (by simp [job_exists_save_job])
        · simp only [dedupLoop, ha, if_false, Bool.false_eq_true]
          exact ih _ h1

theorem dedupLoop_src (now : Nat) (jobs : List Job) (s : JobStorage) (x : String)
    (h : x ∈ (dedupLoop now jobs s).1.map jobId) :
    job_exists x s = false ∧ x ∈ jobs.map jobId := by
  induction jobs generalizing s with
  | nil => simp [dedupLoop] at h
  | cons a rest ih =>
      by_cases ha : job_exists (jobId a) s = true
      · have h' := ih (s := s) (by simpa [dedupLoop, ha] using h)
        exact ⟨h'.1, by simp [h'.2]⟩
      · rcases (by simpa [dedupLoop, ha] using h :
            x = jobId a ∨ x ∈ (dedupLoop now rest (save_job (jobId a) now s)).1.map jobId)
          with h1 | h1
        · subst h1
          exact ⟨by simpa using ha, by simp⟩
        · have h' := ih (s := save_job (jobId a) now s) h1
          have hx : x ≠ jobId a := by
            intro hxa
            rw [hxa] at h'
            simp [job_exists_save_job] at h'
          refine ⟨?_, by simp [h'.2]⟩
          have := h'.1
          simpa [job_exists_save_job, hx] using this

theorem dedupLoop_not_new (now : Nat) (jobs : List Job) (s : JobStorage) (x : String)
    (h : job_exists x s = true) : x ∉ (dedupLoop now jobs s).1.map jobId := by
  intro hmem
  have := (dedupLoop_src now jobs s x hmem).1
  rw [h] at this
  exact absurd this (by decide)

theorem dedupLoop_sub (now : Nat) (jobs : List Job) (s : JobStorage) :
    ∀ j, j ∈ (dedupLoop now jobs s).1 → j ∈ jobs := by
  induction jobs generalizing s with
  | nil => simp [dedupLoop]
  | cons a rest ih =>
      intro j hj
      by_cases ha : job_exists (jobId a) s = true
      · exact List.mem_cons_of_mem _ (ih s j (by simpa [dedupLoop, ha] using hj))
      · rcases (by simpa [dedupLoop, ha] using hj :
            j = a ∨ j ∈ (dedupLoop now rest (save_job (jobId a) now s)).1)
          with h1 | h1
        · simp [h1]
        · exact List.mem_cons_of_mem _ (ih _ j h1)

theorem dedupLoop_count (now : Nat) (jobs : List Job) (s : JobStorage) (x : String) :
    ((dedupLoop now jobs s).1.map jobId).count x ≤ 1 := by
  induction jobs generalizing s with
  | nil => simp [dedupLoop]
  | cons a rest ih =>
      by_cases ha : job_exists (jobId a) s = true
      · simpa [dedupLoop, ha] using ih s
      · simp only [dedupLoop, ha, if_false, Bool.false_eq_true, List.map_cons]
        by_cases hx : jobId a = x
        · subst hx
          have hnot : jobId a ∉
              (dedupLoop now rest (save_job (jobId a) now s)).1.map jobId :=
            dedupLoop_not_new now rest _ (jobId a) (by simp [job_exists_save_job])
          simp [List.count_cons, List.count_eq_zero.mpr hnot]
        · simpa [List.count_cons, hx] using ih (save_job (jobId a) now s)

theorem dedupLoop_covers (now : Nat) (jobs : List Job) (s : JobStorage) (j : Job)
    (hj : j ∈ jobs) (hnew : job_exists (jobId j) s = false) :
    jobId j ∈ (dedupLoop now jobs s).1.map jobId := by
  induction jobs generalizing s with
  | nil => simp at hj
  | cons a rest ih =>
      by_cases ha : job_exists (jobId a) s = true
      · rcases List.mem_cons.mp hj with h1 | h1
        · subst h1
          rw [hnew] at ha
          exact absurd ha (by decide)
        · simpa [dedupLoop, ha] using ih s h1 hnew
      · simp only [dedupLoop, ha, if_false, Bool.false_eq_true, List.map_cons]
        by_cases hx : jobId j = jobId a
        · simp [hx]
        · rcases List.mem_cons.mp hj with h1 | h1
          · exact absurd (congrArg jobId h1) hx
          · exact List.mem_cons_of_mem _
              (ih _ h1 (by simp [job_exists_save_job, hx, hnew]))


/-! ## One cycle and the background loop -/

theorem check_storage (kw : List String) (en : Bool) (now : Nat) (jobs : List Job)
    (s : JobStorage) :
    (check_for_new_jobs kw en now jobs s).storage
      = (dedupLoop now (matching kw jobs) s).2 := rfl

theorem check_new_jobs (kw : List String) (en : Bool) (now : Nat) (jobs : List Job)
    (s : JobStorage) :
    (check_for_new_jobs kw en now jobs s).new_jobs
      = (dedupLoop now (matching kw jobs) s).1 := rfl

theorem check_notified (kw : List String) (en : Bool) (now : Nat) (jobs : List Job)
    (s : JobStorage) :
    (check_for_new_jobs kw en now jobs s).notified
      = (if en then (dedupLoop now (matching kw jobs) s).1 else []) := rfl

theorem check_count (kw : List String) (en : Bool) (now : Nat) (jobs : List Job)
    (s : JobStorage) :
    (check_for_new_jobs kw en now jobs s).count
      = (dedupLoop now (matching kw jobs) s).1.length := rfl

theorem mem_matching (kw : List String) (jobs : List Job) (j : Job)
    (hj : j ∈ jobs) (hm : matchedKeywords kw j ≠ []) : j ∈ matching kw jobs :=
  List.mem_filter.mpr ⟨hj, by simp [List.isEmpty_iff, hm]⟩

theorem dedupLoop_new_exists (now : Nat) (jobs : List Job) (s : JobStorage)
    (x : String) (h : x ∈ (dedupLoop now jobs s).1.map jobId) :
    job_exists x (dedupLoop now jobs s).2 = true := by
  rcases List.mem_map.mp h with ⟨j, hj, rfl⟩
  exact dedupLoop_all now jobs s j (dedupLoop_sub now jobs s j hj)

theorem runCycles_mono (kw : List String) (cycles : List Cycle) (s : JobStorage)
    (x : String) (h : job_exists x s = true) :
    job_exists x (runCycles kw cycles s).1 = true := by
  induction cycles generalizing s with
  | nil => simpa [runCycles] using h
  | cons c rest ih =>
      simp only [runCycles]
      exact ih _ (by
        rw [check_storage]
        exact dedupLoop_mono _ _ _ _ h)

theorem runCycles_zero (kw : List String) (cycles : List Cycle) (s : JobStorage)
    (x : String) (h : job_exists x s = true) :
    (((runCycles kw cycles s).2.flatten).map jobId).count x = 0 := by
  induction cycles generalizing s with
  | nil => simp [runCycles]
  | cons c rest ih =>
      obtain ⟨en, now, jobs⟩ := c
      simp only [runCycles, List.flatten_cons, List.map_append, List.count_append]
      have hrest := ih ((check_for_new_jobs kw en now jobs s).storage)
        (by rw [check_storage]; exact dedupLoop_mono _ _ _ _ h)
      have hnot : x ∉ (dedupLoop now (matching kw jobs) s).1.map jobId :=
        dedupLoop_not_new now _ s x h
      have hfirst : ((check_for_new_jobs kw en now jobs s).notified.map jobId).count x = 0 := by
        cases en with
        | true => simpa [check_notified] using List.count_eq_zero.mpr hnot
        | false => simp [check_notified]
      omega

theorem runCycles_le_one (kw : List String) (cycles : List Cycle) (s : JobStorage)
    (x : String) :
    (((runCycles kw cycles s).2.flatten).map jobId).count x ≤ 1 := by
  induction cycles generalizing s with
  | nil => simp [runCycles]
  | cons c rest ih =>
      obtain ⟨en, now, jobs⟩ := c
      simp only [runCycles, List.flatten_cons, List.map_append, List.count_append]
      by_cases hx : x ∈ (dedupLoop now (matching kw jobs) s).1.map jobId
      · have hex : job_exists x (check_for_new_jobs kw en now jobs s).storage = true := by
          rw [check_storage]
          exact dedupLoop_new_exists now _ s x hx
        have hrest := runCycles_zero kw rest _ x hex
        have hfirst : ((check_for_new_jobs kw en now jobs s).notified.map jobId).count x ≤ 1 := by
          cases en with
          | true => simpa [check_notified] using dedupLoop_count now (matching kw jobs) s x
          | false => simp [check_notified]
        omega
      · have hfirst : ((check_for_new_jobs kw en now jobs s).notified.map jobId).count x = 0 := by
          cases en with
          | true => simpa [check_notified] using List.count_eq_zero.mpr hx
          | false => simp [check_notified]
        have hrest := ih ((check_for_new_jobs kw en now jobs s).storage)
        omega

theorem runCycles_all (kw : List String) (cycles : List Cycle) (s : JobStorage)
    (c : Cycle) (hc : c ∈ cycles) (j : Job) (hj : j ∈ matching kw c.2.2) :
    job_exists (jobId j) (runCycles kw cycles s).1 = true := by
  induction cycles generalizing s with
  | nil => simp at hc
  | cons a rest ih =>
      rcases List.mem_cons.mp hc with h1 | h1
      · subst h1
        simp only [runCycles]
        exact runCycles_mono kw rest _ (jobId j)
          (by rw [check_storage]; exact dedupLoop_all _ _ _ _ hj)
      · simp only [runCycles]
        exact ih _ h1

theorem runCycles_store_indep (kw : List String) (cycles : List Cycle) (s : JobStorage) :
    (runCycles kw cycles s).1
      = (runCycles kw (cycles.map fun c => ((false : Bool), c.2)) s).1 := by
  induction cycles generalizing s with
  | nil => simp [runCycles]
  | cons c rest ih =>
      simp only [runCycles, List.map_cons]
      rw [show (check_for_new_jobs kw c.1 c.2.1 c.2.2 s).storage
            = (check_for_new_jobs kw false c.2.1 c.2.2 s).storage from rfl]
      exact ih _

theorem runCycles_first (kw : List String) (cycles : List Cycle) (s : JobStorage)
    (x : String) (k : Nat)
    (h : x ∈ ((runCycles kw cycles s).2.getD k []).map jobId) :
    job_exists x s = false ∧
      (∃ c, cycles.get? k = some c ∧ x ∈ matchingIds kw c) ∧
      (∀ i, i < k → ∀ c', cycles.get? i = some c' → x ∉ matchingIds kw c') := by
  induction cycles generalizing s k with
  | nil => simp [runCycles] at h
  | cons c rest ih =>
      obtain ⟨en, now, jobs⟩ := c
      cases k with
      | zero =>
          have hx : x ∈ (dedupLoop now (matching kw jobs) s).1.map jobId := by
            cases en with
            | true => simpa [runCycles, check_notified] using h
            | false => simp [runCycles, check_notified] at h
          have hsrc := dedupLoop_src now (matching kw jobs) s x hx
          refine ⟨hsrc.1, ⟨(en, now, jobs), rfl, ?_⟩, by omega⟩
          simpa [matchingIds] using hsrc.2
      | succ k =>
          have h' : x ∈ ((runCycles kw rest
              (check_for_new_jobs kw en now jobs s).storage).2.getD k []).map jobId := by
            simpa [runCycles] using h
          have hrec := ih _ k h'
          have hnotin : x ∉ matchingIds kw (en, now, jobs) := by
            intro hmem
            rcases List.mem_map.mp (by simpa [matchingIds] using hmem) with ⟨j, hj, rfl⟩
            have : job_exists (jobId j) (check_for_new_jobs kw en now jobs s).storage = true := by
              rw [check_storage]
              exact dedupLoop_all _ _ _ _ hj
            rw [hrec.1] at this
            exact absurd this (by decide)
          have hs : job_exists x s = false := by
            by_contra hcon
            have : job_exists x s = true := by
              cases hxs : job_exists x s with
              | true => rfl
              | false => exact absurd hxs hcon
            have := dedupLoop_mono now (matching kw jobs) s x this
            rw [← check_storage kw en now jobs s] at this
            rw [hrec.1] at this
            exact absurd this (by decide)
          refine ⟨hs, by simpa using hrec.2.1, ?_⟩
          intro i hi c' hc'
          cases i with
          | zero =>
              simp only [List.get?] at hc'
              cases hc'
              exact hnotin
          | succ i =>
              exact hrec.2.2 i (by omega) c' (by simpa using hc')


/-! ## Loading the legacy persisted format -/

theorem legacy_foldl_lookup (now : Nat) (ids : List String) :
    ∀ acc : List (String × Nat), (∀ p ∈ acc, p.2 = now) →
      ∀ id_ : String, (id_ ∈ ids ∨ (acc.lookup id_).isSome) →
        (ids.foldl (fun a i => dictInsert i now a) acc).lookup id_ = some now := by
  induction ids with
  | nil =>
      intro acc hacc id_ h
      rcases h with h | h
      · simp at h
      · obtain ⟨v, hv⟩ := Option.isSome_iff_exists.mp h
        have hvnow : v = now := hacc _ (lookup_mem hv)
        simp only [List.foldl_nil]
        rw [hv]
        exact congrArg some hvnow
  | cons i rest ih =>
      intro acc hacc id_ h
      simp only [List.foldl_cons]
      apply ih
      · intro p hp
        rcases mem_dictInsert p i now acc hp with h1 | h1
        · rw [h1]
        · exact hacc p h1
      · rcases h with h | h
        · rcases List.mem_cons.mp h with h1 | h1
          · subst h1
            right
            simp [lookup_dictInsert_self]
          · left
            exact h1
        · right
          by_cases hid : id_ = i
          · subst hid
            simp [lookup_dictInsert_self]
          · rw [lookup_dictInsert_ne _ _ _ _ hid]
            exact h


/-! ## Shape of the store after an eviction sweep -/

theorem cleanup_seen (hrs now : Nat) (s : JobStorage) :
    (cleanup_old_entries hrs now s).1.seen_jobs
      = s.seen_jobs.filter (fun p => now - hrs * 3600 < p.2) := by
  simp only [cleanup_old_entries]
  split <;> rfl

/-! ## The claims -/

/-- Claim C1, counterexample.  The posting has url present but empty and a
non-empty title, so by the claim the identity used at the dedup step should
be the title; the code computes `job.get(url, ...)`, whose fallback fires
only on an absent key, so the identity is the empty string: running one
cycle on this posting records the empty string, not the title. -/
theorem c1_counterexample :
    jobId { title := some "Taxi Driver", description := none, url := some "" } = "" ∧
    job_exists "Taxi Driver"
      (check_for_new_jobs ["taxi"] true 0
        [{ title := some "Taxi Driver", description := none, url := some "" }]
        { seen_jobs := [], file := .absent }).storage = false ∧
    job_exists ""
      (check_for_new_jobs ["taxi"] true 0
        [{ title := some "Taxi Driver", description := none, url := some "" }]
        { seen_jobs := [], file := .absent }).storage = true :=
  ⟨rfl, by decide, by decide⟩

/-- Claim C1, amended.  The identity used by the dedup step is the value of
the url field whenever the url key is present — even when that value is the
empty string — and falls back to the title (empty string when the title key
is also absent) only when the url key is absent; the store operation of the
dedup loop checks and records exactly this identity. -/
theorem c1_url_key_identity (j : Job) :
    (∀ u, j.url = some u → jobId j = u) ∧
    (j.url = none → jobId j = jobTitle j) ∧
    (∀ now s, (dedupLoop now [j] s).2
      = if job_exists (jobId j) s then s else save_job (jobId j) now s) := by
  refine ⟨fun u hu => by simp [jobId, hu], fun hu => by simp [jobId, jobTitle, hu], ?_⟩
  intro now s
  by_cases h : job_exists (jobId j) s = true
  · simp [dedupLoop, h]
  · simp [dedupLoop, h]

/-- Claim C1, witness for the amended theorem at a posting with a present,
non-empty url. -/
theorem c1_witness :
    jobId { title := some "T", description := none, url := some "https://x/1" }
      = "https://x/1" :=
  (c1_url_key_identity _).1 "https://x/1" rfl

/-- Claim C2, counterexample.  A posting with url and title both present
and empty (matched via its description) is not dropped before the store:
one cycle on it records the empty identity in the store, dispatches a
notification for it, and counts it as a new posting. -/
theorem c2_counterexample :
    job_exists ""
      (check_for_new_jobs ["driver"] true 0
        [{ title := some "", description := some "need DRIVER now", url := some "" }]
        { seen_jobs := [], file := .absent }).storage = true ∧
    (check_for_new_jobs ["driver"] true 0
        [{ title := some "", description := some "need DRIVER now", url := some "" }]
        { seen_jobs := [], file := .absent }).notified
      = [{ title := some "", description := some "need DRIVER now", url := some "" }] ∧
    (check_for_new_jobs ["driver"] true 0
        [{ title := some "", description := some "need DRIVER now", url := some "" }]
        { seen_jobs := [], file := .absent }).count = 1 :=
  ⟨by decide, by decide, by decide⟩

/-- Claim C2, amended.  A keyword-matching posting whose identity is empty
is not rejected and nothing is logged for it: the cycle runs the ordinary
dedup path for the empty-string identity, recording it in the store, and
processing of every other matching posting continues as usual. -/
theorem c2_empty_identity_recorded (kw : List String) (en : Bool) (now : Nat)
    (jobs : List Job) (s : JobStorage) (j : Job)
    (hj : j ∈ jobs) (hm : matchedKeywords kw j ≠ []) (hid : jobId j = "") :
    job_exists "" (check_for_new_jobs kw en now jobs s).storage = true ∧
    (∀ j', j' ∈ jobs → matchedKeywords kw j' ≠ [] →
      job_exists (jobId j') (check_for_new_jobs kw en now jobs s).storage = true) := by
  constructor
  · rw [check_storage, ← hid]
    exact dedupLoop_all now _ s j (mem_matching kw jobs j hj hm)
  · intro j' hj' hm'
    rw [check_storage]
    exact dedupLoop_all now _ s j' (mem_matching kw jobs j' hj' hm')

/-- Claim C2, witness for the amended theorem: the empty-identity posting
is recorded and the other matching posting is still processed. -/
theorem c2_witness :
    job_exists ""
      (check_for_new_jobs ["driver"] true 0
        [{ title := some "", description := some "need DRIVER now", url := some "" },
         { title := some "Bus Driver", description := none, url := some "https://x/1" }]
        { seen_jobs := [], file := .absent }).storage = true :=
  (c2_empty_identity_recorded ["driver"] true 0
    [{ title := some "", description := some "need DRIVER now", url := some "" },
     { title := some "Bus Driver", description := none, url := some "https://x/1" }]
    { seen_jobs := [], file := .absent }
    { title := some "", description := some "need DRIVER now", url := some "" }
    (by decide) (by decide) (by decide)).1

/-- Claim C3.  Over any sequence of cycles from any starting store:
(1) each identity is passed to the notifier at most once in the whole run;
(2) an identity notified in cycle k occurs among the matching postings of
cycle k and of no earlier cycle (first occurrence);
(3) the identity of every matching posting of every cycle is recorded in
the final store, whatever the notifications-enabled flags are; and
(4) the final store is the same as when every cycle runs with
notifications disabled — recording does not depend on dispatch. -/
theorem c3_notify_at_most_once (kw : List String) (cycles : List Cycle) (s : JobStorage) :
    (∀ x, (((runCycles kw cycles s).2.flatten).map jobId).count x ≤ 1) ∧
    (∀ x k, x ∈ ((runCycles kw cycles s).2.getD k []).map jobId →
      (∃ c, cycles.get? k = some c ∧ x ∈ matchingIds kw c) ∧
      (∀ i, i < k → ∀ c', cycles.get? i = some c' → x ∉ matchingIds kw c')) ∧
    (∀ c, c ∈ cycles → ∀ j, j ∈ matching kw c.2.2 →
      job_exists (jobId j) (runCycles kw cycles s).1 = true) ∧
    (runCycles kw cycles s).1
      = (runCycles kw (cycles.map fun c => ((false : Bool), c.2)) s).1 :=
  ⟨fun x => runCycles_le_one kw cycles s x,
   fun x k h => (runCycles_first kw cycles s x k h).2,
   fun c hc j hj => runCycles_all kw cycles s c hc j hj,
   runCycles_store_indep kw cycles s⟩

/-- Claim C3, witness: one cycle discovers a posting and its identity is in
the final store. -/
theorem c3_witness :
    job_exists "https://x/1"
      (runCycles ["driver"]
        [(true, 0, [{ title := some "Bus Driver Needed", description := none,
                      url := some "https://x/1" }])]
        { seen_jobs := [], file := .absent }).1 = true :=
  (c3_notify_at_most_once ["driver"]
    [(true, 0, [{ title := some "Bus Driver Needed", description := none,
                  url := some "https://x/1" }])]
    { seen_jobs := [], file := .absent }).2.2.1
    (true, 0, [{ title := some "Bus Driver Needed", description := none,
                 url := some "https://x/1" }])
    (List.mem_singleton_self _)
    { title := some "Bus Driver Needed", description := none, url := some "https://x/1" }
    (by decide)

/-- Claim C4.  The recurring loop `background_task` only alternates
`check_for_new_jobs` with a sleep; `cleanup_old_entries` is never invoked
by it (nor anywhere else in the repository), so no sequence of cycles ever
removes a store entry, however old: an entry present at the start is still
present after every cycle. -/
theorem c4_cleanup_never_invoked (kw : List String) (cycles : List Cycle)
    (s : JobStorage) (x : String) (h : job_exists x s = true) :
    job_exists x (runCycles kw cycles s).1 = true :=
  runCycles_mono kw cycles s x h

/-- Claim C4, witness: an entry first seen at t = 0 is still in the store
after cycles at t = 90000 s (25 h) and t = 180000 s (50 h). -/
theorem c4_witness :
    job_exists "https://x/1"
      (runCycles ["driver"] [(true, 90000, []), (true, 180000, [])]
        { seen_jobs := [("https://x/1", 0)],
          file := .mapping [("https://x/1", 0)] }).1 = true :=
  c4_cleanup_never_invoked ["driver"] [(true, 90000, []), (true, 180000, [])]
    { seen_jobs := [("https://x/1", 0)], file := .mapping [("https://x/1", 0)] }
    "https://x/1" (by decide)

/-- Claim C5, counterexample.  An entry first seen at t = 0 has age exactly
24 h at now = 86400 s; the claim says it is retained, but the sweep keeps
only entries with `timestamp > cutoff` and the cutoff equals the timestamp,
so the entry is removed. -/
theorem c5_counterexample :
    (cleanup_old_entries 24 86400
        { seen_jobs := [("https://x/1", 0)],
          file := .mapping [("https://x/1", 0)] }).1.seen_jobs.lookup "https://x/1"
      = none := by decide

/-- Claim C5, amended.  The sweep removes exactly the entries whose
first_seen is at most `now - retention` (all boundary entries aged exactly
the retention window included), the removed count equals the drop in store
size (the source only logs it — the method returns None, not the count),
and a single flush happens at the end iff at least one entry was
removed. -/
theorem c5_evict_semantics (hrs now : Nat) (s : JobStorage) :
    (∀ id_ t, (id_, t) ∈ (cleanup_old_entries hrs now s).1.seen_jobs ↔
      ((id_, t) ∈ s.seen_jobs ∧ now - hrs * 3600 < t)) ∧
    (cleanup_old_entries hrs now s).2.1
      = s.seen_jobs.length - (cleanup_old_entries hrs now s).1.seen_jobs.length ∧
    ((cleanup_old_entries hrs now s).2.2 = true ↔
      0 < (cleanup_old_entries hrs now s).2.1) ∧
    (cleanup_old_entries hrs now s).1.file
      = (if 0 < (cleanup_old_entries hrs now s).2.1
         then FileState.mapping (cleanup_old_entries hrs now s).1.seen_jobs
         else s.file) := by
  refine ⟨?_, ?_, ?_, ?_⟩
  · intro id_ t
    rw [cleanup_seen]
    simp [List.mem_filter]
  · simp only [cleanup_old_entries]
    split <;> rfl
  · simp only [cleanup_old_entries]
    split <;> simp_all
  · simp only [cleanup_old_entries]
    split <;> simp_all

/-- Claim C5, witness: a young entry survives the sweep. -/
theorem c5_witness :
    ("https://y", 90000) ∈ (cleanup_old_entries 24 86400
        { seen_jobs := [("https://x/1", 0), ("https://y", 90000)],
          file := .absent }).1.seen_jobs :=
  ((c5_evict_semantics 24 86400
      { seen_jobs := [("https://x/1", 0), ("https://y", 90000)],
        file := .absent }).1 "https://y" 90000).mpr ⟨by decide, by decide⟩

/-- Claim C6.  Recording the same identity twice leaves it reported as
seen, and neither the in-memory dict nor the persisted form grows from the
second call (the dict assignment overwrites in place and the flush rewrites
the whole map). -/
theorem c6_record_idempotent (s : JobStorage) (id_ : String) (t₁ t₂ : Nat) :
    job_exists id_ (save_job id_ t₂ (save_job id_ t₁ s)) = true ∧
    (save_job id_ t₂ (save_job id_ t₁ s)).seen_jobs.length
      = (save_job id_ t₁ s).seen_jobs.length ∧
    fileLength (save_job id_ t₂ (save_job id_ t₁ s)).file
      = fileLength (save_job id_ t₁ s).file := by
  have hlook : ((save_job id_ t₁ s).seen_jobs.lookup id_).isSome = true := by
    simp [save_job, save_seen_jobs, lookup_dictInsert_self]
  have hlen : (save_job id_ t₂ (save_job id_ t₁ s)).seen_jobs.length
      = (save_job id_ t₁ s).seen_jobs.length :=
    length_dictInsert_isSome id_ t₂ _ hlook
  refine ⟨?_, hlen, ?_⟩
  · simp [job_exists, save_job, save_seen_jobs, lookup_dictInsert_self]
  · simpa [save_job, save_seen_jobs, fileLength] using hlen

/-- Claim C6, witness at a concrete store. -/
theorem c6_witness :
    job_exists "https://x/1"
      (save_job "https://x/1" 7 (save_job "https://x/1" 3
        { seen_jobs := [("a", 1)], file := .absent })) = true :=
  (c6_record_idempotent { seen_jobs := [("a", 1)], file := .absent }
    "https://x/1" 3 7).1

/-- Claim C7.  Loading the legacy persisted form (a plain list of
identities) yields a store where every listed identity exists and carries
the load-time instant as its first-seen timestamp. -/
theorem c7_legacy_upgrade (now : Nat) (ids : List String) (id_ : String)
    (h : id_ ∈ ids) :
    job_exists id_ (initStorage now (.legacyList ids)) = true ∧
    (initStorage now (.legacyList ids)).seen_jobs.lookup id_ = some now := by
  have hl : (load_seen_jobs now (.legacyList ids)).lookup id_ = some now :=
    legacy_foldl_lookup now ids [] (by simp) id_ (Or.inl h)
  exact ⟨by simp [job_exists, initStorage, hl], by simpa [initStorage] using hl⟩

/-- Claim C7, witness at a concrete legacy list. -/
theorem c7_witness :
    job_exists "a" (initStorage 5 (.legacyList ["a", "b"])) = true :=
  (c7_legacy_upgrade 5 ["a", "b"] "a" (by decide)).1

/-- Claim C8.  Flushing the store and constructing a fresh store from the
written file reproduces the identity-to-timestamp map exactly, so every
previously recorded identity still exists. -/
theorem c8_restart_round_trip (s : JobStorage) (now : Nat) :
    (initStorage now (save_seen_jobs s).file).seen_jobs = s.seen_jobs ∧
    (∀ id_, job_exists id_ (initStorage now (save_seen_jobs s).file)
      = job_exists id_ s) :=
  ⟨rfl, fun _ => rfl⟩

/-- Claim C8, witness at a concrete store. -/
theorem c8_witness :
    (initStorage 9 (save_seen_jobs
      { seen_jobs := [("https://x/1", 2)], file := .absent }).file).seen_jobs
      = [("https://x/1", 2)] :=
  (c8_restart_round_trip { seen_jobs := [("https://x/1", 2)], file := .absent } 9).1

/-- Claim C9.  With notifications disabled the cycle notifies nobody but
produces the same store and the same returned count as the enabled cycle;
a new matching posting is recorded (and appears among the new jobs making
up the count), and its identity is never notified in any later sequence of
cycles, whatever their enabled flags. -/
theorem c9_disabled_still_records (kw : List String) (now : Nat) (jobs : List Job)
    (s : JobStorage) (j : Job) (hj : j ∈ jobs) (hm : matchedKeywords kw j ≠ []) :
    (check_for_new_jobs kw false now jobs s).notified = [] ∧
    (check_for_new_jobs kw false now jobs s).storage
      = (check_for_new_jobs kw true now jobs s).storage ∧
    (check_for_new_jobs kw false now jobs s).count
      = (check_for_new_jobs kw true now jobs s).count ∧
    job_exists (jobId j) (check_for_new_jobs kw false now jobs s).storage = true ∧
    (job_exists (jobId j) s = false →
      jobId j ∈ (check_for_new_jobs kw false now jobs s).new_jobs.map jobId) ∧
    (∀ cycles : List Cycle,
      (((runCycles kw cycles
          (check_for_new_jobs kw false now jobs s).storage).2.flatten).map jobId).count
        (jobId j) = 0) := by
  have hrec : job_exists (jobId j) (check_for_new_jobs kw false now jobs s).storage = true := by
    rw [check_storage]
    exact dedupLoop_all now _ s j (mem_matching kw jobs j hj hm)
  refine ⟨rfl, rfl, rfl, hrec, ?_, ?_⟩
  · intro hnew
    rw [check_new_jobs]
    exact dedupLoop_covers now _ s j (mem_matching kw jobs j hj hm) hnew
  · intro cycles
    exact runCycles_zero kw cycles _ (jobId j) hrec

/-- Claim C9, witness: a matching posting discovered with notifications
disabled is recorded in the store. -/
theorem c9_witness :
    job_exists "https://x/1"
      (check_for_new_jobs ["driver"] false 0
        [{ title := some "Bus Driver Needed", description := none,
           url := some "https://x/1" }]
        { seen_jobs := [], file := .absent }).storage = true :=
  (c9_disabled_still_records ["driver"] 0
    [{ title := some "Bus Driver Needed", description := none,
       url := some "https://x/1" }]
    { seen_jobs := [], file := .absent }
    { title := some "Bus Driver Needed", description := none, url := some "https://x/1" }
    (by decide) (by decide)).2.2.2.1

/-- Claim C10.  The eviction sweep only removes: the dict afterwards is a
sublist of the dict before (no entry added, every retained entry keeps its
exact first-seen timestamp and position), and for an entry of the original
store, membership afterwards is decided solely by comparing its timestamp
with the cutoff. -/
theorem c10_cleanup_frame (hrs now : Nat) (s : JobStorage) :
    ((cleanup_old_entries hrs now s).1.seen_jobs.Sublist s.seen_jobs) ∧
    (∀ id_ t, (id_, t) ∈ (cleanup_old_entries hrs now s).1.seen_jobs →
      (id_, t) ∈ s.seen_jobs) ∧
    (∀ id_ t, (id_, t) ∈ s.seen_jobs →
      ((id_, t) ∈ (cleanup_old_entries hrs now s).1.seen_jobs ↔
        now - hrs * 3600 < t)) := by
  refine ⟨?_, ?_, ?_⟩
  · rw [cleanup_seen]
    exact List.filter_sublist _
  · intro id_ t h
    rw [cleanup_seen] at h
    exact (List.mem_filter.mp h).1
  · intro id_ t h
    rw [cleanup_seen]
    constructor
    · intro hmem
      simpa using (List.mem_filter.mp hmem).2
    · intro ht
      exact List.mem_filter.mpr ⟨h, by simpa using ht⟩

/-- Claim C10, witness: a retained entry of a concrete store. -/
theorem c10_witness :
    ("https://y", 90000) ∈ (cleanup_old_entries 24 86400
        { seen_jobs := [("https://x/1", 0), ("https://y", 90000)],
          file := .absent }).1.seen_jobs :=
  ((c10_cleanup_frame 24 86400
      { seen_jobs := [("https://x/1", 0), ("https://y", 90000)],
        file := .absent }).2.2 "https://y" 90000 (by decide)).mpr (by decide)

end JobScraper
